import Mathlib

/-!
Verification of the pgfga reconciliation engine.

This development is a shallow embedding of the Go sources of the pgfga
repository (packages `pg`, `ldap` and the orchestrating handler).  Pure Go
functions become Lean functions; methods that talk to PostgreSQL become
functions from an explicit catalog state (`DBState`) to a result carrying the
updated state, the list of mutating SQL statements issued, and an optional
error.  Go maps are embedded as association lists (map writes become
`aupdate`, map reads `alookup`); quantifying over the lists covers every
iteration order of the original maps.  Connection establishment and the wire
protocol are abstracted away: every query is evaluated directly against the
catalog state, which is the interface boundary the specification draws.
-/

namespace Pgfga

/-! ## Small string helpers

`hasNO` and `stripNO` embed `strings.HasPrefix(s, "NO")` and
`strings.CutPrefix(s, "NO")` from `roleoption.go`. -/

def hasNO (s : String) : Bool :=
  match s.data with
  | 'N' :: 'O' :: _ => true
  | _ => false

def stripNO (s : String) : String :=
  match s.data with
  | 'N' :: 'O' :: rest => String.mk rest
  | _ => s

/-! ## RoleOption (`roleoption.go`) -/

/-- RoleOption is a string capability token; the signed form carries a `NO`
text prefix. -/
abbrev RoleOption := String

def RoleOption.Absolute (opt : RoleOption) : RoleOption := stripNO opt

def RoleOption.Enabled (opt : RoleOption) : Bool := !hasNO opt

def RoleOption.Invert (opt : RoleOption) : RoleOption :=
  if hasNO opt then stripNO opt else "NO" ++ opt

def RoleSuperUser : RoleOption := "SUPERUSER"
def RoleLogin : RoleOption := "LOGIN"
def RoleCreateRole : RoleOption := "CREATEROLE"
def RoleCreateDB : RoleOption := "CREATEDB"
def RoleInherit : RoleOption := "INHERIT"
def RoleReplication : RoleOption := "REPLICATION"
def RoleBypassRLS : RoleOption := "BYPASSRLS"

/-- The catalog column tested by `RoleOption.SQL` for an enabled option
(`rolsuper`, `rolcanlogin`, or `rol` plus the lowercased token). -/
def RoleOption.sqlColumn (opt : RoleOption) : String :=
  if opt = RoleSuperUser then "rolsuper"
  else if opt = RoleLogin then "rolcanlogin"
  else "rol" ++ opt.toLower

/-! ## RoleOptionMap (`roleoption_map.go`)

A Go `map[RoleOption]bool` is embedded as an association list with
first-match lookup; `aupdate` mirrors a map write (replace in place or
append).  Iterating a Go map visits its keys in an arbitrary order, so the
list order stands for one such order and theorems quantify over it. -/

abbrev RoleOptionMap := List (RoleOption × Bool)

def alookupOpt : RoleOptionMap → RoleOption → Option Bool
  | [], _ => none
  | (k, v) :: rest, key => if k = key then some v else alookupOpt rest key

def aupdateOpt : RoleOptionMap → RoleOption → Bool → RoleOptionMap
  | [], key, val => [(key, val)]
  | (k, v) :: rest, key, val =>
      if k = key then (k, val) :: rest else (k, v) :: aupdateOpt rest key val

def romKeys (rom : RoleOptionMap) : List RoleOption := rom.map Prod.fst

/-- Clone iterates the keys and stores `opt.Enabled()` for each key `opt`:
the stored boolean is re-derived from the key text, not copied. -/
def RoleOptionMap.Clone (rom : RoleOptionMap) : RoleOptionMap :=
  rom.foldl (fun clone kv => aupdateOpt clone kv.1 kv.1.Enabled) []

/-- AbsoluteMerge clones the receiver (keys unchanged) and then writes each
of the argument's entries under its absolute key with key-derived value. -/
def RoleOptionMap.AbsoluteMerge (rom other : RoleOptionMap) : RoleOptionMap :=
  other.foldl (fun merged kv => aupdateOpt merged kv.1.Absolute kv.1.Enabled)
    rom.Clone

/-- Merge has exactly the same body as AbsoluteMerge in the source. -/
def RoleOptionMap.Merge (rom other : RoleOptionMap) : RoleOptionMap :=
  other.foldl (fun merged kv => aupdateOpt merged kv.1.Absolute kv.1.Enabled)
    rom.Clone

def RoleOptionMap.IsEnabled (rom : RoleOptionMap) (opt : RoleOption) : Bool :=
  match alookupOpt rom opt with
  | none => false
  | some enabled => enabled

/-! ## Association lists for Go maps keyed by strings -/

def alookup {α : Type} : List (String × α) → String → Option α
  | [], _ => none
  | (k, v) :: rest, key => if k = key then some v else alookup rest key

def aupdate {α : Type} : List (String × α) → String → α → List (String × α)
  | [], key, val => [(key, val)]
  | (k, v) :: rest, key, val =>
      if k = key then (k, val) :: rest else (k, v) :: aupdate rest key val

def aerase {α : Type} : List (String × α) → String → List (String × α)
  | [], _ => []
  | (k, v) :: rest, key => if k = key then aerase rest key else (k, v) :: aerase rest key

/-! ## State (`state.go`) -/

/-- Tri-state lifecycle marker: Present, Absent or Allowed. -/
inductive State where
  | Present
  | Absent
  | Allowed
deriving DecidableEq

/-- StrictOptions (`strict_options.go`): per-kind flags permitting removal. -/
structure StrictOptions where
  Users : Bool
  Databases : Bool
  Extensions : Bool
  Slots : Bool
deriving DecidableEq

/-! ## Role declarations (`unnamed/part_000`)

Go `time.Time` expiry values are embedded as `Nat`; `0` is the zero time, so
`IsZero()` becomes `= 0`.  RFC3339 formatting and md5 hex digests are library
calls outside the reconciliation logic; they enter as the parameters of
`HashEnv` and every theorem quantifies over them. -/

structure Role where
  Name : String
  Options : RoleOptionMap
  State : State
  Password : String
  Expiry : Nat
deriving DecidableEq

/-- Clone copies only Name, Options and State; Password and Expiry fall back
to their Go zero values. -/
def Role.Clone (r : Role) : Role :=
  { Name := r.Name, Options := r.Options.Clone, State := r.State
    Password := "", Expiry := 0 }

/-- Merge clones the receiver, merges the options, and forces Present when
the other role is Present. -/
def Role.Merge (r other : Role) : Role :=
  let merged := r.Clone
  let merged := { merged with Options := r.Options.Merge other.Options }
  if other.State = State.Present then { merged with State := State.Present }
  else merged

def NewRole (name : String) : Role :=
  { Name := name, Options := [], State := State.Present, Password := "", Expiry := 0 }

/-- The Go zero value of `Role` (`State{value: 0}` is Present). -/
def zeroRole : Role :=
  { Name := "", Options := [], State := State.Present, Password := "", Expiry := 0 }

abbrev Roles := List (String × Role)

/-- AddRole reads the existing entry (the zero Role when the name is new) and
stores `existing.Merge(r)` under `r.Name`. -/
def Roles.AddRole (rs : Roles) (r : Role) : Roles :=
  aupdate rs r.Name (((alookup rs r.Name).getD zeroRole).Merge r)

/-! ## Grants (`unnamed/part_006`) -/

structure Grant where
  Grantee : Role
  Granted : Role
  State : State
deriving DecidableEq

def Grant.toText (g : Grant) : String :=
  "grant of role " ++ g.Granted.Name ++ " to role " ++ g.Grantee.Name

abbrev Grants := List Grant

/-- The condition under which `Grants.Append` panics for an existing entry:
same grantee and granted names, differing states, neither Allowed. -/
def grantConflict (grant newGrant : Grant) : Prop :=
  grant.Grantee.Name = newGrant.Grantee.Name ∧
  grant.Granted.Name = newGrant.Granted.Name ∧
  grant.State ≠ newGrant.State ∧
  grant.State ≠ State.Allowed ∧ newGrant.State ≠ State.Allowed

instance (g g' : Grant) : Decidable (grantConflict g g') := by
  unfold grantConflict; infer_instance

/-- Append walks the existing list, panicking (embedded as an error carrying
the formatted panic message) at the first conflicting entry, and otherwise
returns the list with the new grant appended. -/
def Grants.Append (gs : Grants) (newGrant : Grant) : Except String Grants :=
  match gs with
  | [] => .ok [newGrant]
  | grant :: rest =>
      if grantConflict grant newGrant then
        .error (grant.toText ++ " is both Present and Absent")
      else
        match Grants.Append rest newGrant with
        | .ok l => .ok (grant :: l)
        | .error e => .error e

/-- First conflicting existing grant, if any (used to characterise Append). -/
def firstConflict (gs : Grants) (newGrant : Grant) : Option Grant :=
  gs.find? (fun grant => decide (grantConflict grant newGrant))

/-! ## Directory membership resolver (`unnamed/part_006` ldap section)

The Member graph is embedded by its child map: `children m` lists the names
of the members attached below `m`, in one iteration order of the Go
`children` map.  `MembershipTree` recurses through the graph; the `fuel`
argument bounds the recursion depth (the Go original recurses unboundedly,
which agrees with this embedding whenever the fuel exceeds the longest path,
in particular on every acyclic graph). -/

def membershipTree (children : String → List String) : Nat → String → List (String × String)
  | 0, _ => []
  | fuel + 1, m =>
      ((children m).map (fun c => (c, m) :: membershipTree children fuel c)).flatten

/-- `ReachesIn children base p n`: node `p` is reachable from `base` by
following `n` child edges. -/
inductive ReachesIn (children : String → List String) : String → String → Nat → Prop where
  | refl (m : String) : ReachesIn children m m 0
  | step {a p q : String} {n : Nat} :
      ReachesIn children a p n → q ∈ children p → ReachesIn children a q (n + 1)

/-- The specification's example graph: base group `eng`, subgroup `backend`
containing user `alice`. -/
def engChildren : String → List String := fun m =>
  if m = "eng" then ["backend"] else if m = "backend" then ["alice"] else []

/-- An acyclic graph in which node `s` is a child of both the base group and
of `g1` — as a directory produces when a group is listed directly under the
base and also nested in another group. -/
def diamondChildren : String → List String := fun m =>
  if m = "base" then ["g1", "s"]
  else if m = "g1" then ["s"]
  else if m = "s" then ["u"]
  else []

/-! ## The PostgreSQL catalog state

`DBState` is the model of the observable catalog: roles with their flag
columns, password and expiry, the role-membership edges (`pg_auth_members`
rows as (granted, member) pairs), databases with owner, installed extensions
and the schemas still missing read-only grants, the available-extension
catalogs, the replication slots, and the connecting user (`CURRENT_USER`).
`pg_shadow` contains exactly the roles whose `rolcanlogin` flag is set.
Mutating SQL statements are recorded as `Stmt` values and executed on the
state by `applyStmt`; existence queries are evaluated directly against the
state.  Connection establishment and server-side execution failures are
outside the model (the SQL capability boundary of the specification). -/

structure CatRole where
  flags : List String
  passwd : Option String
  validuntil : Option String
deriving DecidableEq

structure CatExt where
  version : String
  schema : String
deriving DecidableEq

structure CatDatabase where
  owner : String
  exts : List (String × CatExt)
  missingRO : List String
deriving DecidableEq

structure DBState where
  roles : List (String × CatRole)
  memberships : List (String × String)
  databases : List (String × CatDatabase)
  availableExts : List String
  availableVers : List (String × String)
  slots : List String
  currentUser : String
deriving DecidableEq

/-- Mutating SQL statements issued by the reconcilers. -/
inductive Stmt where
  | createRole (name : String)
  | alterRoleOption (name : String) (opt : RoleOption)
  | alterRolePassword (name hashed : String)
  | alterRolePasswordNull (name : String)
  | alterRoleValidUntil (name value : String)
  | grantRole (granted grantee : String)
  | revokeRole (target fromRole : String)
  | reassignOwned (dbname owner newOwner : String)
  | dropRole (name : String)
  | createDatabase (name : String)
  | alterDatabaseOwner (name owner : String)
  | grantReadOnly (dbname schema roRole : String)
  | createExtension (dbname extname schema version : String)
  | dropExtension (dbname extname : String)
  | alterExtensionSchema (dbname extname schema : String)
  | alterExtensionVersion (dbname extname version : String)
  | createSlot (name : String)
  | dropSlot (name : String)
  | dropDatabase (name : String)
deriving DecidableEq

/-- Errors returned by the reconcilers (Go `error` values). -/
inductive Err where
  | extNotAvailable (name : String)
  | extVersionNotAvailable (version name : String)
  | ownerDoesNotExist (dbname : String)
  | noField
deriving DecidableEq

/-- Environment of library functions the role reconciler uses: md5 hex
digests and RFC3339 time formatting. -/
structure HashEnv where
  md5hex : String → String
  fmtTime : Nat → String

def getRole (s : DBState) (n : String) : Option CatRole := alookup s.roles n

def roleExists (s : DBState) (n : String) : Bool := (getRole s n).isSome

def getDb (s : DBState) (n : String) : Option CatDatabase := alookup s.databases n

def extInstalled (s : DBState) (dbname extname : String) : Option CatExt :=
  (getDb s dbname).bind (fun d => alookup d.exts extname)

/-- The catalog-column test generated by `RoleOption.SQL` for a role row. -/
def optionHolds (cr : CatRole) (opt : RoleOption) : Bool :=
  if opt.Enabled then decide (opt.sqlColumn ∈ cr.flags)
  else !decide ((opt.Invert).sqlColumn ∈ cr.flags)

def inShadow (cr : CatRole) : Bool := decide ("rolcanlogin" ∈ cr.flags)

def insertStr (l : List String) (x : String) : List String :=
  if x ∈ l then l else l ++ [x]

def setRole (s : DBState) (n : String) (cr : CatRole) : DBState :=
  { s with roles := aupdate s.roles n cr }

def updRole (s : DBState) (n : String) (f : CatRole → CatRole) : DBState :=
  match getRole s n with
  | some cr => setRole s n (f cr)
  | none => s

def updDb (s : DBState) (n : String) (f : CatDatabase → CatDatabase) : DBState :=
  match getDb s n with
  | some db => { s with databases := aupdate s.databases n (f db) }
  | none => s

/-- The effect of each issued SQL statement on the catalog state.  A
`CREATE EXTENSION` records the declared schema/version strings: when they are
empty the server would pick defaults, which this program never reads back
(version and schema are only compared when declared non-empty). -/
def applyStmt (s : DBState) : Stmt → DBState
  | .createRole n => { s with roles := aupdate s.roles n ⟨[], none, none⟩ }
  | .alterRoleOption n opt =>
      updRole s n (fun cr =>
        { cr with flags :=
            if opt.Enabled then insertStr cr.flags opt.sqlColumn
            else cr.flags.filter (fun c => decide (c ≠ (opt.Invert).sqlColumn)) })
  | .alterRolePassword n h => updRole s n (fun cr => { cr with passwd := some h })
  | .alterRolePasswordNull n => updRole s n (fun cr => { cr with passwd := none })
  | .alterRoleValidUntil n v => updRole s n (fun cr => { cr with validuntil := some v })
  | .grantRole granted grantee =>
      { s with memberships :=
          if (granted, grantee) ∈ s.memberships then s.memberships
          else s.memberships ++ [(granted, grantee)] }
  | .revokeRole target fromRole =>
      { s with memberships :=
          s.memberships.filter (fun p => decide (p ≠ (target, fromRole))) }
  | .reassignOwned _ owner newOwner =>
      { s with databases :=
          s.databases.map (fun kv =>
            if kv.2.owner = owner then (kv.1, { kv.2 with owner := newOwner }) else kv) }
  | .dropRole n =>
      { s with
        roles := aerase s.roles n
        memberships := s.memberships.filter (fun p => decide (p.1 ≠ n ∧ p.2 ≠ n)) }
  | .createDatabase n =>
      { s with databases := aupdate s.databases n ⟨s.currentUser, [], []⟩ }
  | .alterDatabaseOwner n o => updDb s n (fun db => { db with owner := o })
  | .grantReadOnly dbname schema _ =>
      updDb s dbname (fun db =>
        { db with missingRO := db.missingRO.filter (fun x => decide (x ≠ schema)) })
  | .createExtension dbname en sch ver =>
      updDb s dbname (fun db => { db with exts := aupdate db.exts en ⟨ver, sch⟩ })
  | .dropExtension dbname en =>
      updDb s dbname (fun db => { db with exts := aerase db.exts en })
  | .alterExtensionSchema dbname en sch =>
      updDb s dbname (fun db =>
        { db with exts :=
            match alookup db.exts en with
            | some ce => aupdate db.exts en { ce with schema := sch }
            | none => db.exts })
  | .alterExtensionVersion dbname en ver =>
      updDb s dbname (fun db =>
        { db with exts :=
            match alookup db.exts en with
            | some ce => aupdate db.exts en { ce with version := ver }
            | none => db.exts })
  | .createSlot n => { s with slots := insertStr s.slots n }
  | .dropSlot n => { s with slots := s.slots.filter (fun x => decide (x ≠ n)) }
  | .dropDatabase n => { s with databases := aerase s.databases n }

/-! ## Reconciler results

Each reconciler maps a catalog state to the updated state, the list of
mutating statements it issued, and an optional error; `seqR` sequences two
reconcilers with the Go early-return-on-error discipline, `runList` is the
`for ... range { if err != nil return err }` loop. -/

structure RunResult where
  state : DBState
  stmts : List Stmt
  err : Option Err
deriving DecidableEq

def noopR (s : DBState) : RunResult := ⟨s, [], none⟩

def emitR (s : DBState) (st : Stmt) : RunResult := ⟨applyStmt s st, [st], none⟩

def failR (s : DBState) (e : Err) : RunResult := ⟨s, [], some e⟩

def seqR (r : RunResult) (f : DBState → RunResult) : RunResult :=
  match r.err with
  | some _ => r
  | none =>
      let r2 := f r.state
      ⟨r2.state, r.stmts ++ r2.stmts, r2.err⟩

def runList {α : Type} (f : α → DBState → RunResult) : List α → DBState → RunResult
  | [], s => noopR s
  | x :: xs, s => seqR (f x s) (runList f xs)

def runFuncs : List (DBState → RunResult) → DBState → RunResult
  | [], s => noopR s
  | f :: fs, s => seqR (f s) (runFuncs fs)

/-! ## Role reconciler (`unnamed/part_000`) -/

/-- `Role.create`: create the role unless the existence query finds it. -/
def Role.create (r : Role) (s : DBState) : RunResult :=
  if roleExists s r.Name then noopR s else emitR s (.createRole r.Name)

/-- One iteration of the option loop: the existence query is
`rolname = $1 AND <option.SQL()>`, so it reports a row exactly when the role
exists and the option's catalog test holds; otherwise one ALTER is issued. -/
def roleOptionStep (r : Role) (opt : RoleOption) (s : DBState) : RunResult :=
  match getRole s r.Name with
  | some cr =>
      if optionHolds cr opt then noopR s else emitR s (.alterRoleOption r.Name opt)
  | none => emitR s (.alterRoleOption r.Name opt)

/-- `Role.reconcileRoleOptions` iterates the keys of the declared option map
(one statement per disagreeing option). -/
def Role.reconcileRoleOptions (r : Role) (s : DBState) : RunResult :=
  runList (fun (kv : RoleOption × Bool) => roleOptionStep r kv.1) r.Options s

/-- `Role.reconcileSetExpiry`: skip on zero expiry; otherwise the check query
`rolvaliduntil IS NULL OR rolvaliduntil != $2` reports divergence unless the
stored value equals the formatted declared expiry. -/
def Role.reconcileSetExpiry (env : HashEnv) (r : Role) (s : DBState) : RunResult :=
  if r.Expiry = 0 then noopR s
  else
    match getRole s r.Name with
    | none => noopR s
    | some cr =>
        if cr.validuntil = some (env.fmtTime r.Expiry) then noopR s
        else emitR s (.alterRoleValidUntil r.Name (env.fmtTime r.Expiry))

/-- `Role.reconcileResetExpiry`: skip on non-zero expiry; otherwise reset to
`infinity` when the stored value is non-NULL and not already `infinity`. -/
def Role.reconcileResetExpiry (r : Role) (s : DBState) : RunResult :=
  if r.Expiry ≠ 0 then noopR s
  else
    match getRole s r.Name with
    | none => noopR s
    | some cr =>
        match cr.validuntil with
        | none => noopR s
        | some v =>
            if v = "infinity" then noopR s
            else emitR s (.alterRoleValidUntil r.Name "infinity")

/-- `strings.HasPrefix(s, "md5")` for the canonical pre-hashed form. -/
def hasMD5 (s : String) : Bool :=
  match s.data with
  | 'm' :: 'd' :: '5' :: _ => true
  | _ => false

/-- A declared password of the canonical length-35 `md5`-prefixed form is
used verbatim; otherwise it is salted with the role name and hashed. -/
def hashPassword (env : HashEnv) (password name : String) : String :=
  if password.length = 35 ∧ hasMD5 password = true then password
  else "md5" ++ env.md5hex (password ++ name)

/-- `Role.reconcileSetPassword`: the check query reports the role unless the
`pg_shadow` row already stores the hashed password. -/
def Role.reconcileSetPassword (env : HashEnv) (r : Role) (s : DBState) : RunResult :=
  if r.Password = "" ∨ r.Options.IsEnabled RoleLogin = false then noopR s
  else
    let hashed := hashPassword env r.Password r.Name
    match getRole s r.Name with
    | none => noopR s
    | some cr =>
        if inShadow cr = true ∧ cr.passwd.getD "" = hashed then noopR s
        else emitR s (.alterRolePassword r.Name hashed)

/-- `Role.reconcileResetPassword`: clear a stored password unless the role
can log in with a declared password; the connecting user is excluded by the
query. -/
def Role.reconcileResetPassword (r : Role) (s : DBState) : RunResult :=
  if r.Password ≠ "" ∧ r.Options.IsEnabled RoleLogin = true then noopR s
  else
    match getRole s r.Name with
    | none => noopR s
    | some cr =>
        if inShadow cr = true ∧ cr.passwd ≠ none ∧ r.Name ≠ s.currentUser then
          emitR s (.alterRolePasswordNull r.Name)
        else noopR s

/-- `Role.reconcile` runs the six steps in source order for Present roles. -/
def Role.reconcile (env : HashEnv) (r : Role) (s : DBState) : RunResult :=
  if r.State ≠ State.Present then noopR s
  else
    runFuncs
      [r.create, r.reconcileRoleOptions, r.reconcileSetExpiry env,
       r.reconcileResetExpiry, r.reconcileSetPassword env,
       r.reconcileResetPassword] s

/-- The rows of the reassignment query in `Role.drop`: every database other
than `template0`, joined to its current owner role. -/
def reassignRows (s : DBState) : List (String × String) :=
  (s.databases.filter
      (fun kv => decide (kv.1 ≠ "template0") && roleExists s kv.2.owner)).map
    (fun kv => (kv.1, kv.2.owner))

/-- `Role.drop` (`unnamed/part_000`): acts only on Absent roles; the
existence query excludes the connecting user; then one REASSIGN per returned
database row, then DROP ROLE.  Note: this version consults no strict-mode
flag.  (The row loop is embedded as iterating all result rows, the evident
intent of the source's scan loop.) -/
def Role.drop (r : Role) (s : DBState) : RunResult :=
  if r.State ≠ State.Absent then noopR s
  else if roleExists s r.Name = true ∧ r.Name ≠ s.currentUser then
    seqR
      (runList (fun (row : String × String) s => emitR s (.reassignOwned row.1 r.Name row.2))
        (reassignRows s) s)
      (fun s => emitR s (.dropRole r.Name))
  else noopR s

def Roles.reconcile (env : HashEnv) (rs : Roles) (s : DBState) : RunResult :=
  runList (fun (kv : String × Role) => Role.reconcile env kv.2) rs s

def Roles.finalize (rs : Roles) (s : DBState) : RunResult :=
  runList (fun (kv : String × Role) => Role.drop kv.2) rs s

/-! ## Grant reconciler (`unnamed/part_006`) -/

/-- `Grant.grant`: for a Present grant, check the directed membership edge
(granted → grantee as member) and issue GRANT when missing. -/
def Grant.grant (g : Grant) (s : DBState) : RunResult :=
  if g.State ≠ State.Present then noopR s
  else if (g.Granted.Name, g.Grantee.Name) ∈ s.memberships then noopR s
  else emitR s (.grantRole g.Granted.Name g.Grantee.Name)

/-- `Grant.revoke`: for an Absent grant, the source passes `g.Grantee` and
`g.Granted` (the Role values, embedded here as the names those arguments
denote) as `$1` (the granted role) and `$2` (the member), so it checks the
reversed edge, guards `$2` against CURRENT_USER, and issues
`REVOKE Grantee.Name FROM Granted.Name`. -/
def Grant.revoke (g : Grant) (s : DBState) : RunResult :=
  if g.State ≠ State.Absent then noopR s
  else if (g.Grantee.Name, g.Granted.Name) ∈ s.memberships ∧ g.Granted.Name ≠ s.currentUser then
    emitR s (.revokeRole g.Grantee.Name g.Granted.Name)
  else noopR s

def Grants.reconcile (gs : Grants) (s : DBState) : RunResult :=
  runList Grant.grant gs s

def Grants.finalize (gs : Grants) (s : DBState) : RunResult :=
  runList Grant.revoke gs s

/-! ## Extension reconciler (`pkg/pg/extension.go`) -/

structure Ext where
  name : String
  Schema : String
  State : State
  Version : String
deriving DecidableEq

abbrev Exts := List (String × Ext)

/-- `extension.create`: availability of the name and of the literal
(name, declared-version) pair are checked first and fail fast; then the
installed-extension existence query guards the CREATE. -/
def Ext.create (e : Ext) (dbname : String) (s : DBState) : RunResult :=
  if e.State ≠ State.Present then noopR s
  else if e.name ∉ s.availableExts then failR s (.extNotAvailable e.name)
  else if (e.name, e.Version) ∉ s.availableVers then
    failR s (.extVersionNotAvailable e.Version e.name)
  else if (extInstalled s dbname e.name).isSome then noopR s
  else emitR s (.createExtension dbname e.name e.Schema e.Version)

/-- `extension.drop` issues `DROP EXTENSION IF EXISTS` unconditionally for
an Absent extension: there is no client-side existence guard. -/
def Ext.drop (e : Ext) (dbname : String) (s : DBState) : RunResult :=
  if e.State ≠ State.Absent then noopR s
  else emitR s (.dropExtension dbname e.name)

def Ext.reconcileSchema (e : Ext) (dbname : String) (s : DBState) : RunResult :=
  if e.State ≠ State.Present then noopR s
  else if e.Schema = "" then noopR s
  else
    match extInstalled s dbname e.name with
    | none => failR s .noField
    | some ce =>
        if ce.schema = e.Schema then noopR s
        else emitR s (.alterExtensionSchema dbname e.name e.Schema)

def Ext.reconcileVersion (e : Ext) (dbname : String) (s : DBState) : RunResult :=
  if e.State ≠ State.Present then noopR s
  else if e.Version = "" then noopR s
  else
    match extInstalled s dbname e.name with
    | none => failR s .noField
    | some ce =>
        if ce.version = e.Version then noopR s
        else emitR s (.alterExtensionVersion dbname e.name e.Version)

def Ext.reconcile (e : Ext) (dbname : String) (s : DBState) : RunResult :=
  runFuncs
    [e.create dbname, e.drop dbname, e.reconcileSchema dbname,
     e.reconcileVersion dbname] s

def Exts.reconcile (es : Exts) (dbname : String) (s : DBState) : RunResult :=
  runList (fun (kv : String × Ext) => Ext.reconcile kv.2 dbname) es s

/-! ## Database reconciler (`unnamed/part_005`) -/

structure Database where
  name : String
  Owner : String
  Extensions : Exts
  State : State
deriving DecidableEq

/-- The `hasProperOwner` query: the database row joined to its owner role,
restricted to `rolname = declared owner`. -/
def hasProperOwner (s : DBState) (dbname owner : String) : Bool :=
  match getDb s dbname with
  | some db => decide (db.owner = owner) && roleExists s db.owner
  | none => false

def Database.create (d : Database) (s : DBState) : RunResult :=
  if (getDb s d.name).isSome then noopR s else emitR s (.createDatabase d.name)

/-- `Database.reconcileOwner`: skip when the owner already matches; fail when
the declared owner role does not exist; otherwise ALTER the owner. -/
def Database.reconcileOwner (d : Database) (s : DBState) : RunResult :=
  if hasProperOwner s d.name d.Owner then noopR s
  else if roleExists s d.Owner = false then failR s (.ownerDoesNotExist d.name)
  else emitR s (.alterDatabaseOwner d.name d.Owner)

/-- `Database.reconcileReadOnlyGrants` first collects the schemas with
ungranted tables and then grants each of them to `<db>_readonly`. -/
def Database.reconcileReadOnlyGrants (d : Database) (s : DBState) : RunResult :=
  match getDb s d.name with
  | none => noopR s
  | some db =>
      runList
        (fun schema s => emitR s (.grantReadOnly d.name schema (d.name ++ "_readonly")))
        db.missingRO s

def Database.reconcile (d : Database) (s : DBState) : RunResult :=
  if d.State ≠ State.Present then noopR s
  else
    runFuncs
      [d.create, d.reconcileOwner, d.reconcileReadOnlyGrants,
       Exts.reconcile d.Extensions d.name] s

def Database.drop (d : Database) (s : DBState) : RunResult :=
  if d.State ≠ State.Absent then noopR s
  else if (getDb s d.name).isSome then emitR s (.dropDatabase d.name)
  else noopR s

abbrev Databases := List (String × Database)

def Databases.reconcile (ds : Databases) (s : DBState) : RunResult :=
  runList (fun (kv : String × Database) => Database.reconcile kv.2) ds s

def Databases.finalize (ds : Databases) (s : DBState) : RunResult :=
  runList (fun (kv : String × Database) => Database.drop kv.2) ds s

/-! ## Replication slot reconciler (`unnamed/part_004`)

Both `create` and `drop` are guarded by the slot-existence query; neither
consults the slot's State or any strict-mode flag in this version. -/

structure Slot where
  name : String
  State : State
deriving DecidableEq

def Slot.create (sl : Slot) (s : DBState) : RunResult :=
  if sl.name ∈ s.slots then noopR s else emitR s (.createSlot sl.name)

def Slot.drop (sl : Slot) (s : DBState) : RunResult :=
  if sl.name ∈ s.slots then emitR s (.dropSlot sl.name) else noopR s

abbrev Slots := List (String × Slot)

def Slots.reconcile (sls : Slots) (s : DBState) : RunResult :=
  runList (fun (kv : String × Slot) => Slot.create kv.2) sls s

def Slots.finalize (sls : Slots) (s : DBState) : RunResult :=
  runList (fun (kv : String × Slot) => Slot.drop kv.2) sls s

/-! ## Orchestrating handler (`unnamed/part_002`) -/

structure Handler where
  StrictOptions : StrictOptions
  Databases : Databases
  Roles : Roles
  Grants : Grants
  Slots : Slots
deriving DecidableEq

/-- The converge pass: Roles, then Grants, then Databases (with their
extensions), then Slots, with Go early return on the first error. -/
def Handler.Reconcile (env : HashEnv) (h : Handler) (s : DBState) : RunResult :=
  runFuncs
    [Roles.reconcile env h.Roles, Grants.reconcile h.Grants,
     Databases.reconcile h.Databases, Slots.reconcile h.Slots] s

/-- The prune pass: Databases, then Grants, then Roles, then Slots. -/
def Handler.Finalize (h : Handler) (s : DBState) : RunResult :=
  runFuncs
    [Databases.finalize h.Databases, Grants.finalize h.Grants,
     Roles.finalize h.Roles, Slots.finalize h.Slots] s

/-! ## Satisfaction: a catalog state matching a desired-state registry

These predicates spell out what it means for the observed catalog to already
satisfy the declarations: Present roles exist with every declared option in
force, the declared expiry/password converged, Present grants' edges exist,
Present databases exist with the declared (existing) owner, no outstanding
read-only grants, and their Present extensions available and installed in
the declared schema/version; declared slots exist. -/

def roleSatisfied (env : HashEnv) (r : Role) (s : DBState) : Bool :=
  if r.State = State.Present then
    match getRole s r.Name with
    | none => false
    | some cr =>
        r.Options.all (fun kv => optionHolds cr kv.1) &&
        (if r.Expiry = 0 then
          decide (cr.validuntil = none ∨ cr.validuntil = some "infinity")
        else decide (cr.validuntil = some (env.fmtTime r.Expiry))) &&
        (if r.Password ≠ "" ∧ r.Options.IsEnabled RoleLogin = true then
          decide (cr.passwd = some (hashPassword env r.Password r.Name))
        else decide (cr.passwd = none) || !inShadow cr)
  else true

def grantSatisfied (g : Grant) (s : DBState) : Bool :=
  if g.State = State.Present then decide ((g.Granted.Name, g.Grantee.Name) ∈ s.memberships)
  else true

def extSatisfied (e : Ext) (dbname : String) (s : DBState) : Bool :=
  if e.State = State.Present then
    decide (e.name ∈ s.availableExts) &&
    decide ((e.name, e.Version) ∈ s.availableVers) &&
    (match extInstalled s dbname e.name with
      | none => false
      | some ce =>
          (decide (e.Schema = "") || decide (ce.schema = e.Schema)) &&
          (decide (e.Version = "") || decide (ce.version = e.Version)))
  else true

def dbSatisfied (d : Database) (s : DBState) : Bool :=
  if d.State = State.Present then
    match getDb s d.name with
    | none => false
    | some db =>
        decide (db.owner = d.Owner) && roleExists s db.owner &&
        db.missingRO.isEmpty &&
        d.Extensions.all (fun kv => extSatisfied kv.2 d.name s)
  else true

def slotSatisfied (sl : Slot) (s : DBState) : Bool :=
  decide (sl.name ∈ s.slots)

def satisfiesB (env : HashEnv) (h : Handler) (s : DBState) : Bool :=
  h.Roles.all (fun kv => roleSatisfied env kv.2 s) &&
  h.Grants.all (fun g => grantSatisfied g s) &&
  h.Databases.all (fun kv => dbSatisfied kv.2 s) &&
  h.Slots.all (fun kv => slotSatisfied kv.2 s)

/-- No database reconciled by the converge pass carries an Absent-declared
extension (the one unguarded mutation source in the pass). -/
def noAbsentExts (h : Handler) : Bool :=
  h.Databases.all (fun kv =>
    !decide (kv.2.State = State.Present) ||
    kv.2.Extensions.all (fun ekv => decide (ekv.2.State ≠ State.Absent)))

/-! # Theorems -/

/-! ## Generic lemmas about association lists and run sequencing -/

theorem alookup_aupdate_self {α : Type} (l : List (String × α)) (k : String) (v : α) :
    alookup (aupdate l k v) k = some v := by
  induction l with
  | nil => simp [aupdate, alookup]
  | cons kv rest ih =>
      by_cases hk : kv.1 = k
      · simp [aupdate, hk, alookup]
      · simp [aupdate, hk, alookup, ih]

theorem alookupOpt_mem {rom : RoleOptionMap} {k : RoleOption} {v : Bool}
    (h : alookupOpt rom k = some v) : (k, v) ∈ rom := by
  induction rom with
  | nil => simp [alookupOpt] at h
  | cons kv rest ih =>
      obtain ⟨k', v'⟩ := kv
      by_cases hk : k' = k
      · subst hk
        simp [alookupOpt] at h
        subst h
        exact List.mem_cons_self _ _
      · simp [alookupOpt, hk] at h
        exact List.mem_cons_of_mem _ (ih h)

theorem mem_keys_aupdateOpt {rom : RoleOptionMap} {k x : RoleOption} {v : Bool}
    (h : x ∈ romKeys (aupdateOpt rom k v)) : x = k ∨ x ∈ romKeys rom := by
  induction rom with
  | nil => simpa [aupdateOpt, romKeys] using h
  | cons kv rest ih =>
      obtain ⟨k', v'⟩ := kv
      by_cases hk : k' = k
      · simp only [aupdateOpt, if_pos hk, romKeys, List.map_cons, List.mem_cons] at h
        rcases h with h | h
        · exact Or.inl (h.trans hk)
        · exact Or.inr (by simp only [romKeys, List.map_cons, List.mem_cons]; exact Or.inr h)
      · simp only [aupdateOpt, if_neg hk, romKeys, List.map_cons, List.mem_cons] at h
        rcases h with h | h
        · exact Or.inr (by simp only [romKeys, List.map_cons, List.mem_cons]; exact Or.inl h)
        · rcases ih h with h' | h'
          · exact Or.inl h'
          · exact Or.inr
              (by simp only [romKeys, List.map_cons, List.mem_cons]; exact Or.inr h')

theorem mem_keys_foldUpd (g : RoleOption × Bool → RoleOption)
    (w : RoleOption × Bool → Bool) (l : RoleOptionMap) :
    ∀ (acc : RoleOptionMap) (x : RoleOption),
      x ∈ romKeys (List.foldl (fun a kv => aupdateOpt a (g kv) (w kv)) acc l) →
      x ∈ romKeys acc ∨ ∃ kv ∈ l, x = g kv := by
  induction l with
  | nil => intro acc x hx; exact Or.inl hx
  | cons kv rest ih =>
      intro acc x hx
      have hx' : x ∈ romKeys (List.foldl (fun a kv => aupdateOpt a (g kv) (w kv))
          (aupdateOpt acc (g kv) (w kv)) rest) := hx
      rcases ih _ x hx' with h | h
      · rcases mem_keys_aupdateOpt h with h1 | h1
        · exact Or.inr ⟨kv, List.mem_cons_self _ _, h1⟩
        · exact Or.inl h1
      · rcases h with ⟨kv', hm, hxk⟩
        exact Or.inr ⟨kv', List.mem_cons_of_mem _ hm, hxk⟩

theorem mem_keys_clone {rom : RoleOptionMap} {x : RoleOption}
    (h : x ∈ romKeys rom.Clone) : x ∈ romKeys rom := by
  rcases mem_keys_foldUpd (fun kv => kv.1) (fun kv => kv.1.Enabled) rom [] x h with h' | h'
  · simp [romKeys] at h'
  · rcases h' with ⟨kv, hm, rfl⟩
    exact List.mem_map_of_mem Prod.fst hm

theorem mem_keys_absoluteMerge {rom other : RoleOptionMap} {x : RoleOption}
    (h : x ∈ romKeys (rom.AbsoluteMerge other)) :
    x ∈ romKeys rom.Clone ∨ ∃ kv ∈ other, x = kv.1.Absolute :=
  mem_keys_foldUpd (fun kv => kv.1.Absolute) (fun kv => kv.1.Enabled) other rom.Clone x h

theorem enabled_absolute_eq {k : RoleOption} (h : k.Enabled = true) : k.Absolute = k := by
  unfold RoleOption.Enabled at h
  unfold RoleOption.Absolute stripNO
  unfold hasNO at h
  split
  · next heq =>
      rw [heq] at h
      simp at h
  · rfl

/-! ## C2 — absolute merge of option maps -/

/-- C2 counterexample: AbsoluteMerge is not last-writer-wins on the stored
boolean value and not receiver-independent.  Merging the absolute-keyed map
holding login true with the absolute-keyed map holding login false yields
login true (the stored false is ignored: values are re-derived from the key
text); and with the disabled option stored under its signed key, swapping
which map is the receiver flips the resulting login value. -/
theorem c2_counterexample :
    alookupOpt (RoleOptionMap.AbsoluteMerge [(RoleLogin, true)] [(RoleLogin, false)])
      RoleLogin = some true ∧
    alookupOpt (RoleOptionMap.AbsoluteMerge [("NOLOGIN", false)] [(RoleLogin, true)])
      RoleLogin = some true ∧
    alookupOpt (RoleOptionMap.AbsoluteMerge [(RoleLogin, true)] [("NOLOGIN", false)])
      RoleLogin = some false := by
  decide

/-- C2 (amended): AbsoluteMerge derives every merged value from the key's
textual sign and collapses only the argument's keys to absolute form.
Merging `[LOGIN ↦ true]` (receiver) with the signed-disabled map
`[NOLOGIN ↦ false]` yields `[LOGIN ↦ false]` (the last-applied argument's
sign wins); with the receiver and argument swapped the receiver's signed key
survives, `[NOLOGIN ↦ false, LOGIN ↦ true]`, so the outcome depends on which
map is the receiver; and merging `[LOGIN ↦ true]` with `[LOGIN ↦ false]`
yields `[LOGIN ↦ true]` because stored booleans are ignored. -/
theorem c2_amended :
    RoleOptionMap.AbsoluteMerge [(RoleLogin, true)] [("NOLOGIN", false)]
      = [(RoleLogin, false)] ∧
    RoleOptionMap.AbsoluteMerge [("NOLOGIN", false)] [(RoleLogin, true)]
      = [("NOLOGIN", false), (RoleLogin, true)] ∧
    RoleOptionMap.AbsoluteMerge [(RoleLogin, true)] [(RoleLogin, false)]
      = [(RoleLogin, true)] := by
  decide

/-! ## C3 — signed/unsigned key coexistence after merge -/

/-- C3 counterexample: a merged map CAN hold both a signed and the unsigned
key for the same absolute identity — the receiver's signed keys are not
collapsed by AbsoluteMerge. -/
theorem c3_counterexample :
    "NOLOGIN" ∈ romKeys (RoleOptionMap.AbsoluteMerge [("NOLOGIN", false)] [(RoleLogin, true)]) ∧
    RoleLogin ∈ romKeys (RoleOptionMap.AbsoluteMerge [("NOLOGIN", false)] [(RoleLogin, true)]) ∧
    RoleOption.Absolute "NOLOGIN" = RoleLogin ∧
    ("NOLOGIN" : RoleOption) ≠ RoleLogin := by
  decide

/-- C3 (amended): only the argument's entries are collapsed to absolute
keys; when every receiver key is already in absolute (unsigned) form and
every argument key has an unsigned absolute form (true of all valid
options), the merged map never holds two distinct keys with the same
absolute identity. -/
theorem c3_amended : ∀ (rom other : RoleOptionMap),
    (∀ k ∈ romKeys rom, k.Enabled = true) →
    (∀ kv ∈ other, (RoleOption.Absolute kv.1).Enabled = true) →
    ∀ k₁ ∈ romKeys (rom.AbsoluteMerge other), ∀ k₂ ∈ romKeys (rom.AbsoluteMerge other),
      k₁.Absolute = k₂.Absolute → k₁ = k₂ := by
  intro rom other hrom hother k₁ h1 k₂ h2 habs
  have key_enabled : ∀ k ∈ romKeys (rom.AbsoluteMerge other), k.Enabled = true := by
    intro k hk
    rcases mem_keys_absoluteMerge hk with h | ⟨kv, hmem, rfl⟩
    · exact hrom k (mem_keys_clone h)
    · exact hother kv hmem
  have e1 := enabled_absolute_eq (key_enabled k₁ h1)
  have e2 := enabled_absolute_eq (key_enabled k₂ h2)
  exact e1.symm.trans (habs.trans e2)

/-- C3 amended, applied at a concrete merge with all hypotheses discharged. -/
theorem c3_amended_witness : RoleLogin = RoleLogin :=
  c3_amended [(RoleLogin, true)] [("NOLOGIN", false)] (by decide) (by decide)
    RoleLogin (by decide) RoleLogin (by decide) rfl

/-! ## C5 — grant registration conflict detection -/

/-- C5: `Grants.Append` is pure registration (no catalog state is touched,
so no SQL can be issued) and is fully characterised by the first conflicting
existing entry: it panics — embedded as an error carrying the formatted
message naming the conflicting grant — exactly when some existing grant has
the same grantee and granted names, a differing State, and neither State is
Allowed; otherwise the new grant is appended. -/
theorem c5_append_first_conflict : ∀ (gs : Grants) (g : Grant),
    Grants.Append gs g =
      (match firstConflict gs g with
        | some g' => Except.error (g'.toText ++ " is both Present and Absent")
        | none => Except.ok (gs ++ [g])) := by
  intro gs g
  induction gs with
  | nil => rfl
  | cons grant rest ih =>
      by_cases hc : grantConflict grant g
      · simp only [Grants.Append, if_pos hc]
        unfold firstConflict
        rw [List.find?_cons_of_pos _ (by simpa using hc)]
      · simp only [Grants.Append, if_neg hc]
        unfold firstConflict at ih ⊢
        rw [List.find?_cons_of_neg _ (by simpa using hc), ih]
        cases hfc : List.find? (fun grant => decide (grantConflict grant g)) rest <;>
          simp [hfc]

/-! ## C9 — merge discards password and expiry -/

/-- C9: `Role.Clone` copies only Name, Options and State, so `Role.Merge`
always returns a Role with empty Password and zero Expiry, whatever the two
inputs carried; consequently any role stored through `Roles.AddRole` (which
always routes through Merge, including for a name registered twice) has lost
any declared password or expiry. -/
theorem c9_merge_discards_password_expiry : ∀ (r other : Role) (rs : Roles),
    (r.Merge other).Password = "" ∧ (r.Merge other).Expiry = 0 ∧
    (alookup (Roles.AddRole rs r) r.Name).map (fun m => (m.Password, m.Expiry))
      = some ("", 0) ∧
    (alookup (Roles.AddRole (Roles.AddRole rs r) other) other.Name).map
        (fun m => (m.Password, m.Expiry))
      = some ("", 0) := by
  have hm : ∀ (a b : Role), (a.Merge b).Password = "" ∧ (a.Merge b).Expiry = 0 := by
    intro a b
    unfold Role.Merge Role.Clone
    split <;> simp
  intro r other rs
  refine ⟨(hm r other).1, (hm r other).2, ?_, ?_⟩
  · rw [Roles.AddRole, alookup_aupdate_self]
    simp [(hm _ r).1, (hm _ r).2]
  · rw [Roles.AddRole, alookup_aupdate_self]
    simp [(hm _ other).1, (hm _ other).2]

/-! ## C10 — extension with an empty declared version -/

/-- C10 counterexample: with an empty declared version AND an extension name
missing from the available-extensions catalog, `create` returns the
extension-not-available error, not the version-not-available error the claim
promises for every catalog lacking a (name, empty-version) row. -/
theorem c10_counterexample :
    Ext.create ⟨"foo", "", State.Present, ""⟩ "db" ⟨[], [], [], [], [], [], "admin"⟩
      = ⟨⟨[], [], [], [], [], [], "admin"⟩, [], some (Err.extNotAvailable "foo")⟩ ∧
    (("foo", "") ∉ (⟨[], [], [], [], [], [], "admin"⟩ : DBState).availableVers) ∧
    Err.extNotAvailable "foo" ≠ Err.extVersionNotAvailable "" "foo" := by
  decide

/-- C10 (amended): for an extension declared Present with an empty version
whose name IS in the available-extensions catalog, `create` always runs the
available-version query with the literal empty version string, so it returns
the version-not-available error — and issues no CREATE EXTENSION — whenever
the catalog holds no (name, empty-string) row; when the name itself is
unavailable the earlier extension-not-available error is returned, likewise
without a CREATE. -/
theorem c10_amended : ∀ (e : Ext) (dbname : String) (s : DBState),
    e.State = State.Present → e.Version = "" → e.name ∈ s.availableExts →
    (e.name, "") ∉ s.availableVers →
    Ext.create e dbname s = ⟨s, [], some (Err.extVersionNotAvailable "" e.name)⟩ := by
  intro e dbname s hP hV hA hNV
  simp [Ext.create, hP, hV, hA, hNV, failR]

/-! ## C8 — membership tree expansion -/

theorem membershipTree_mem_child {children : String → List String} {m c : String}
    {fuel : Nat} (hc : c ∈ children m) :
    (c, m) ∈ membershipTree children (fuel + 1) m := by
  simp only [membershipTree]
  exact List.mem_flatten.mpr
    ⟨(c, m) :: membershipTree children fuel c,
      List.mem_map_of_mem _ hc, List.mem_cons_self _ _⟩

theorem membershipTree_sub {children : String → List String} {p q : String} {fuel : Nat}
    (hq : q ∈ children p) {x : String × String}
    (hx : x ∈ membershipTree children fuel q) :
    x ∈ membershipTree children (fuel + 1) p := by
  simp only [membershipTree]
  exact List.mem_flatten.mpr
    ⟨(q, p) :: membershipTree children fuel q,
      List.mem_map_of_mem _ hq, List.mem_cons_of_mem _ hx⟩

theorem membershipTree_mono {children : String → List String} :
    ∀ (fuel fuel' : Nat) (m : String) (x : String × String), fuel ≤ fuel' →
      x ∈ membershipTree children fuel m → x ∈ membershipTree children fuel' m := by
  intro fuel
  induction fuel with
  | zero => intro fuel' m x _ hx; simp [membershipTree] at hx
  | succ f ih =>
      intro fuel' m x hle hx
      obtain ⟨f', rfl⟩ : ∃ f', fuel' = f' + 1 := ⟨fuel' - 1, by omega⟩
      simp only [membershipTree] at hx ⊢
      rcases List.mem_flatten.mp hx with ⟨l, hl, hxl⟩
      rcases List.mem_map.mp hl with ⟨c, hc, rfl⟩
      rcases List.mem_cons.mp hxl with h | h
      · exact List.mem_flatten.mpr
          ⟨_, List.mem_map_of_mem _ hc, by rw [h]; exact List.mem_cons_self _ _⟩
      · exact List.mem_flatten.mpr
          ⟨_, List.mem_map_of_mem _ hc,
            List.mem_cons_of_mem _ (ih f' c x (by omega) h)⟩

theorem membershipTree_transport {children : String → List String} {base p : String}
    {n : Nat} (hreach : ReachesIn children base p n) :
    ∀ (fuel : Nat), n < fuel → ∀ x ∈ membershipTree children (fuel - n) p,
      x ∈ membershipTree children fuel base := by
  induction hreach with
  | refl => intro fuel _ x hx; simpa using hx
  | @step p q n d hq ih =>
      intro fuel hlt x hx
      have h1 := membershipTree_sub hq hx
      have h2 : x ∈ membershipTree children (fuel - n) p :=
        membershipTree_mono _ _ _ x (by omega) h1
      exact ih fuel (by omega) x h2

/-- C8 counterexample: on the acyclic diamond graph the traversal emits the
row for the child edge (u, s) twice — one Membership row per PATH, not one
per reachable child edge as the claim states. -/
theorem c8_counterexample :
    membershipTree diamondChildren 4 "base"
      = [("g1", "base"), ("s", "g1"), ("u", "s"), ("s", "base"), ("u", "s")] ∧
    (membershipTree diamondChildren 4 "base").count ("u", "s") = 2 := by
  decide

/-- C8 (amended): every child edge (c, p) with p reachable from the base
within the traversal depth appears AT LEAST once in the emitted rows, in
depth-first pre-order; a node reachable along several paths contributes its
subtree once per path, so rows can repeat.  On the tree-shaped example
graph — base group eng, subgroup backend containing alice — the rows are
exactly (backend, eng) then (alice, backend). -/
theorem c8_amended :
    (∀ (children : String → List String) (base p c : String) (n fuel : Nat),
        ReachesIn children base p n → n < fuel → c ∈ children p →
        (c, p) ∈ membershipTree children fuel base) ∧
    membershipTree engChildren 3 "eng" = [("backend", "eng"), ("alice", "backend")] := by
  constructor
  · intro children base p c n fuel hreach hlt hc
    have h0 : (c, p) ∈ membershipTree children (fuel - n) p := by
      obtain ⟨k, hk⟩ : ∃ k, fuel - n = k + 1 := ⟨fuel - n - 1, by omega⟩
      rw [hk]
      exact membershipTree_mem_child hc
    exact membershipTree_transport hreach fuel hlt _ h0
  · decide

/-- C8 amended, applied to the example: (alice, backend) is emitted for the
edge below the subgroup reachable in one step from the base. -/
theorem c8_amended_witness :
    ("alice", "backend") ∈ membershipTree engChildren 3 "eng" :=
  c8_amended.1 engChildren "eng" "backend" "alice" 1 3
    (ReachesIn.step (ReachesIn.refl "eng") (by decide)) (by decide) (by decide)

/-! ## C1 — idempotence of the converge pass -/

theorem seqR_noop_left (s : DBState) (f : DBState → RunResult) :
    seqR (noopR s) f = f s := rfl

theorem runList_noop {α : Type} (f : α → DBState → RunResult) (xs : List α) (s : DBState)
    (hall : ∀ x ∈ xs, f x s = noopR s) : runList f xs s = noopR s := by
  induction xs with
  | nil => rfl
  | cons x rest ih =>
      have hx : f x s = noopR s := hall x (List.mem_cons_self _ _)
      show seqR (f x s) (runList f rest) = noopR s
      rw [hx, seqR_noop_left]
      exact ih (fun y hy => hall y (List.mem_cons_of_mem _ hy))

theorem runFuncs_noop (fs : List (DBState → RunResult)) (s : DBState)
    (hall : ∀ f ∈ fs, f s = noopR s) : runFuncs fs s = noopR s := by
  induction fs with
  | nil => rfl
  | cons f rest ih =>
      have hf : f s = noopR s := hall f (List.mem_cons_self _ _)
      show seqR (f s) (runFuncs rest) = noopR s
      rw [hf, seqR_noop_left]
      exact ih (fun g hg => hall g (List.mem_cons_of_mem _ hg))

theorem role_reconcile_noop (env : HashEnv) (r : Role) (s : DBState)
    (hsat : roleSatisfied env r s = true) : Role.reconcile env r s = noopR s := by
  unfold Role.reconcile
  by_cases hP : r.State = State.Present
  case neg => simp [hP]
  case pos =>
    unfold roleSatisfied at hsat
    rw [if_pos hP] at hsat
    cases hcr : getRole s r.Name with
    | none => rw [hcr] at hsat; simp at hsat
    | some cr =>
        rw [hcr] at hsat
        rw [Bool.and_eq_true, Bool.and_eq_true] at hsat
        obtain ⟨⟨hopts, hexp⟩, hpwd⟩ := hsat
        have hopts' : ∀ kv ∈ r.Options, optionHolds cr kv.1 = true := by
          intro kv hkv
          exact List.all_eq_true.mp hopts kv hkv
        have hcreate : Role.create r s = noopR s := by
          simp [Role.create, roleExists, hcr]
        have hoptions : Role.reconcileRoleOptions r s = noopR s := by
          unfold Role.reconcileRoleOptions
          apply runList_noop
          intro kv hkv
          simp [roleOptionStep, hcr, hopts' kv hkv]
        have hsetexp : Role.reconcileSetExpiry env r s = noopR s := by
          by_cases hz : r.Expiry = 0
          · simp [Role.reconcileSetExpiry, hz]
          · rw [if_neg hz] at hexp
            have hv : cr.validuntil = some (env.fmtTime r.Expiry) := of_decide_eq_true hexp
            simp [Role.reconcileSetExpiry, hz, hcr, hv]
        have hresetexp : Role.reconcileResetExpiry r s = noopR s := by
          by_cases hz : r.Expiry = 0
          · rw [if_pos hz] at hexp
            have hv := of_decide_eq_true hexp
            rcases hv with hv | hv <;> simp [Role.reconcileResetExpiry, hz, hcr, hv]
          · simp [Role.reconcileResetExpiry, hz]
        have hlogin_shadow : r.Options.IsEnabled RoleLogin = true → inShadow cr = true := by
          intro hE
          have hlk : alookupOpt r.Options RoleLogin = some true := by
            unfold RoleOptionMap.IsEnabled at hE
            cases hl : alookupOpt r.Options RoleLogin with
            | none => rw [hl] at hE; simp at hE
            | some b =>
                rw [hl] at hE
                cases b
                · simp at hE
                · rfl
          have hmem := alookupOpt_mem hlk
          have hho := hopts' (RoleLogin, true) hmem
          have hen : RoleOption.Enabled RoleLogin = true := by decide
          have hcol : RoleOption.sqlColumn RoleLogin = "rolcanlogin" := by decide
          unfold optionHolds at hho
          rw [if_pos hen, hcol] at hho
          unfold inShadow
          exact hho
        have hsetpwd : Role.reconcileSetPassword env r s = noopR s := by
          by_cases hPw : r.Password = ""
          · simp [Role.reconcileSetPassword, hPw]
          · cases hE : r.Options.IsEnabled RoleLogin with
            | false => simp [Role.reconcileSetPassword, hE]
            | true =>
                rw [if_pos ⟨hPw, hE⟩] at hpwd
                have hps : cr.passwd = some (hashPassword env r.Password r.Name) :=
                  of_decide_eq_true hpwd
                have hsh := hlogin_shadow hE
                simp [Role.reconcileSetPassword, hPw, hE, hcr, hsh, hps]
        have hresetpwd : Role.reconcileResetPassword r s = noopR s := by
          by_cases hg : r.Password ≠ "" ∧ r.Options.IsEnabled RoleLogin = true
          · simp [Role.reconcileResetPassword, hg]
          · rw [if_neg hg] at hpwd
            rw [Bool.or_eq_true] at hpwd
            rcases hpwd with hb | hb
            · have h1 : cr.passwd = none := of_decide_eq_true hb
              simp [Role.reconcileResetPassword, hg, hcr, h1]
            · have h1 : inShadow cr = false := by
                cases hi : inShadow cr
                · rfl
                · rw [hi] at hb; simp at hb
              simp [Role.reconcileResetPassword, hg, hcr, h1]

        rw [if_neg (by simp [hP])]
        apply runFuncs_noop
        intro f hf
        simp only [List.mem_cons, List.not_mem_nil, or_false] at hf
        rcases hf with rfl | rfl | rfl | rfl | rfl | rfl
        · exact hcreate
        · exact hoptions
        · exact hsetexp
        · exact hresetexp
        · exact hsetpwd
        · exact hresetpwd

theorem grant_grant_noop (g : Grant) (s : DBState)
    (hsat : grantSatisfied g s = true) : Grant.grant g s = noopR s := by
  by_cases hP : g.State = State.Present
  · unfold grantSatisfied at hsat
    rw [if_pos hP] at hsat
    have hm := of_decide_eq_true hsat
    simp [Grant.grant, hP, hm]
  · simp [Grant.grant, hP]

theorem ext_reconcile_noop (e : Ext) (dbname : String) (s : DBState)
    (hna : e.State ≠ State.Absent) (hsat : extSatisfied e dbname s = true) :
    Ext.reconcile e dbname s = noopR s := by
  unfold Ext.reconcile
  apply runFuncs_noop
  intro f hf
  simp only [List.mem_cons, List.not_mem_nil, or_false] at hf
  by_cases hP : e.State = State.Present
  · unfold extSatisfied at hsat
    rw [if_pos hP] at hsat
    rw [Bool.and_eq_true, Bool.and_eq_true] at hsat
    obtain ⟨⟨hav, hvv⟩, hin⟩ := hsat
    cases hce : extInstalled s dbname e.name with
    | none => rw [hce] at hin; simp at hin
    | some ce =>
        rw [hce, Bool.and_eq_true] at hin
        obtain ⟨hsch, hver⟩ := hin
        rcases hf with rfl | rfl | rfl | rfl
        · simp [Ext.create, hP, hce, of_decide_eq_true hav, of_decide_eq_true hvv]
        · simp [Ext.drop, hna]
        · by_cases hs0 : e.Schema = ""
          · simp [Ext.reconcileSchema, hs0]
          · have heq : ce.schema = e.Schema := by
              rw [Bool.or_eq_true] at hsch
              rcases hsch with hb | hb
              · exact absurd (of_decide_eq_true hb) hs0
              · exact of_decide_eq_true hb
            simp [Ext.reconcileSchema, hP, hs0, hce, heq]
        · by_cases hv0 : e.Version = ""
          · simp [Ext.reconcileVersion, hv0]
          · have heq : ce.version = e.Version := by
              rw [Bool.or_eq_true] at hver
              rcases hver with hb | hb
              · exact absurd (of_decide_eq_true hb) hv0
              · exact of_decide_eq_true hb
            simp [Ext.reconcileVersion, hP, hv0, hce, heq]
  · rcases hf with rfl | rfl | rfl | rfl
    · simp [Ext.create, hP]
    · simp [Ext.drop, hna]
    · simp [Ext.reconcileSchema, hP]
    · simp [Ext.reconcileVersion, hP]

theorem db_reconcile_noop (d : Database) (s : DBState) (hsat : dbSatisfied d s = true)
    (hexts : d.State = State.Present →
      ∀ kv ∈ d.Extensions, (kv : String × Ext).2.State ≠ State.Absent) :
    Database.reconcile d s = noopR s := by
  unfold Database.reconcile
  by_cases hP : d.State = State.Present
  case neg => simp [hP]
  case pos =>
    unfold dbSatisfied at hsat
    rw [if_pos hP] at hsat
    cases hdb : getDb s d.name with
    | none => rw [hdb] at hsat; simp at hsat
    | some db =>
        rw [hdb] at hsat
        rw [Bool.and_eq_true, Bool.and_eq_true, Bool.and_eq_true] at hsat
        obtain ⟨⟨⟨hown, hoex⟩, hro⟩, hext⟩ := hsat
        rw [if_neg (by simp [hP])]
        apply runFuncs_noop
        intro f hf
        simp only [List.mem_cons, List.not_mem_nil, or_false] at hf
        rcases hf with rfl | rfl | rfl | rfl
        · simp [Database.create, hdb]
        · have ho : db.owner = d.Owner := of_decide_eq_true hown
          have hoex2 : roleExists s d.Owner = true := by rw [← ho]; exact hoex
          simp [Database.reconcileOwner, hasProperOwner, hdb, ho, hoex, hoex2]
        · have hro' : db.missingRO = [] := by
            cases hl : db.missingRO
            · rfl
            · rw [hl] at hro; simp at hro
          simp [Database.reconcileReadOnlyGrants, hdb, hro', runList, noopR]
        · unfold Exts.reconcile
          apply runList_noop
          intro kv hkv
          exact ext_reconcile_noop kv.2 d.name s (hexts hP kv hkv)
            (List.all_eq_true.mp hext kv hkv)

theorem slot_create_noop (sl : Slot) (s : DBState)
    (hsat : slotSatisfied sl s = true) : Slot.create sl s = noopR s := by
  unfold slotSatisfied at hsat
  simp [Slot.create, of_decide_eq_true hsat]

/-- C1 counterexample: a registry whose Present database carries an
Absent-declared extension, on a catalog state that fully satisfies the
registry (the extension is not installed), still makes the converge pass
issue a mutating statement — the unconditional `DROP EXTENSION IF EXISTS`
of `extension.drop` — on every run, so the second of two identical runs is
not free of mutating statements. -/
theorem c1_counterexample :
    satisfiesB ⟨fun _ => "", fun _ => ""⟩
        ⟨⟨false, false, false, false⟩,
          [("d", ⟨"d", "d", [("e", ⟨"e", "", State.Absent, ""⟩)], State.Present⟩)],
          [], [], []⟩
        ⟨[("d", ⟨[], none, none⟩)], [], [("d", ⟨"d", [], []⟩)], [], [], [], "admin"⟩
      = true ∧
    Handler.Reconcile ⟨fun _ => "", fun _ => ""⟩
        ⟨⟨false, false, false, false⟩,
          [("d", ⟨"d", "d", [("e", ⟨"e", "", State.Absent, ""⟩)], State.Present⟩)],
          [], [], []⟩
        ⟨[("d", ⟨[], none, none⟩)], [], [("d", ⟨"d", [], []⟩)], [], [], [], "admin"⟩
      = ⟨⟨[("d", ⟨[], none, none⟩)], [], [("d", ⟨"d", [], []⟩)], [], [], [], "admin"⟩,
          [Stmt.dropExtension "d" "e"], none⟩ ∧
    ([Stmt.dropExtension "d" "e"] : List Stmt) ≠ [] := by
  decide

/-- C1 (amended): on every catalog state that satisfies the desired-state
registry, and for every registry whose Present databases carry no
Absent-declared extension, the converge pass issues zero mutating
statements, leaves the state untouched and returns no error: every mutation
in role, grant, database and slot reconciliation other than extension
removal is guarded by an existence/divergence query that reports no
divergence on a satisfied state. -/
theorem c1_converge_noop_when_satisfied : ∀ (env : HashEnv) (h : Handler) (s : DBState),
    satisfiesB env h s = true → noAbsentExts h = true →
    Handler.Reconcile env h s = noopR s := by
  intro env h s hsat hnoabs
  unfold satisfiesB at hsat
  rw [Bool.and_eq_true, Bool.and_eq_true, Bool.and_eq_true] at hsat
  obtain ⟨⟨⟨hroles, hgrants⟩, hdbs⟩, hslots⟩ := hsat
  unfold Handler.Reconcile
  apply runFuncs_noop
  intro f hf
  simp only [List.mem_cons, List.not_mem_nil, or_false] at hf
  rcases hf with rfl | rfl | rfl | rfl
  · unfold Roles.reconcile
    apply runList_noop
    intro kv hkv
    exact role_reconcile_noop env kv.2 s (List.all_eq_true.mp hroles kv hkv)
  · unfold Grants.reconcile
    apply runList_noop
    intro g hg
    exact grant_grant_noop g s (List.all_eq_true.mp hgrants g hg)
  · unfold Databases.reconcile
    apply runList_noop
    intro kv hkv
    apply db_reconcile_noop kv.2 s (List.all_eq_true.mp hdbs kv hkv)
    intro hPres ekv hekv
    unfold noAbsentExts at hnoabs
    have h1 := List.all_eq_true.mp hnoabs kv hkv
    rw [Bool.or_eq_true] at h1
    rcases h1 with h2 | h2
    · rw [Bool.not_eq_true', decide_eq_false_iff_not] at h2
      exact absurd hPres h2
    · exact of_decide_eq_true (List.all_eq_true.mp h2 ekv hekv)
  · unfold Slots.reconcile
    apply runList_noop
    intro kv hkv
    exact slot_create_noop kv.2 s (List.all_eq_true.mp hslots kv hkv)

/-- C1 amended, applied at a populated satisfied registry: one login role,
one group, one grant with its edge in place, one database owning an
installed available extension, one slot. -/
theorem c1_converge_noop_witness :
    Handler.Reconcile ⟨fun _ => "", fun _ => ""⟩
        ⟨⟨false, false, false, false⟩,
          [("d", ⟨"d", "app", [("pgcrypto", ⟨"pgcrypto", "", State.Present, "1.3"⟩)],
            State.Present⟩)],
          [("app", ⟨"app", [(RoleLogin, true)], State.Present, "", 0⟩),
            ("grp", ⟨"grp", [], State.Present, "", 0⟩)],
          [⟨⟨"app", [(RoleLogin, true)], State.Present, "", 0⟩,
            ⟨"grp", [], State.Present, "", 0⟩, State.Present⟩],
          [("slot1", ⟨"slot1", State.Present⟩)]⟩
        ⟨[("app", ⟨["rolcanlogin"], none, none⟩), ("grp", ⟨[], none, none⟩)],
          [("grp", "app")],
          [("d", ⟨"app", [("pgcrypto", ⟨"1.3", "public"⟩)], []⟩)],
          ["pgcrypto"], [("pgcrypto", "1.3")], ["slot1"], "admin"⟩
      = noopR
        ⟨[("app", ⟨["rolcanlogin"], none, none⟩), ("grp", ⟨[], none, none⟩)],
          [("grp", "app")],
          [("d", ⟨"app", [("pgcrypto", ⟨"1.3", "public"⟩)], []⟩)],
          ["pgcrypto"], [("pgcrypto", "1.3")], ["slot1"], "admin"⟩ :=
  c1_converge_noop_when_satisfied ⟨fun _ => "", fun _ => ""⟩ _ _ (by decide) (by decide)

/-! ## C6 — strict-mode gating of role drops -/

/-- C6: evaluation at the failing input.  With strict mode for users
disabled, the prune pass still drops an Absent-declared role: `Role.drop` in
the current finalize path never consults `StrictOptions.Users`, so
`Handler.Finalize` issues `DROP ROLE` for role `r` (which exists and is not
the connecting user) even though `StrictOptions.Users = false`. -/
theorem c6_finalize_ignores_strict_users :
    (⟨⟨false, false, false, false⟩, [], [("r", ⟨"r", [], State.Absent, "", 0⟩)],
        [], []⟩ : Handler).StrictOptions.Users = false ∧
    Handler.Finalize
        ⟨⟨false, false, false, false⟩, [], [("r", ⟨"r", [], State.Absent, "", 0⟩)], [], []⟩
        ⟨[("r", ⟨[], none, none⟩), ("admin", ⟨[], none, none⟩)], [], [], [], [], [], "admin"⟩
      = ⟨⟨[("admin", ⟨[], none, none⟩)], [], [], [], [], [], "admin"⟩,
          [Stmt.dropRole "r"], none⟩ := by
  decide

/-! ## C7 — revoke symmetry -/

/-- C7: evaluation at the failing input.  For the Absent grant of role
`admins` to grantee `alice`, with the exact membership edge a Present
declaration maintains — (granted `admins`, member `alice`) — in place and
grantee ≠ CURRENT_USER, `Grant.revoke` issues nothing: it checks the
reversed edge.  On the reversed state it issues `REVOKE "alice" FROM
"admins"`, the mirror image of the GRANT its Present counterpart would
issue; that Present counterpart is a no-op on the forward edge, confirming
which edge is the granted one. -/
theorem c7_revoke_checks_reversed_edge :
    Grant.revoke
        ⟨⟨"alice", [], State.Present, "", 0⟩, ⟨"admins", [], State.Present, "", 0⟩,
          State.Absent⟩
        ⟨[], [("admins", "alice")], [], [], [], [], "postgres"⟩
      = noopR ⟨[], [("admins", "alice")], [], [], [], [], "postgres"⟩ ∧
    Grant.grant
        ⟨⟨"alice", [], State.Present, "", 0⟩, ⟨"admins", [], State.Present, "", 0⟩,
          State.Present⟩
        ⟨[], [("admins", "alice")], [], [], [], [], "postgres"⟩
      = noopR ⟨[], [("admins", "alice")], [], [], [], [], "postgres"⟩ ∧
    Grant.revoke
        ⟨⟨"alice", [], State.Present, "", 0⟩, ⟨"admins", [], State.Present, "", 0⟩,
          State.Absent⟩
        ⟨[], [("alice", "admins")], [], [], [], [], "postgres"⟩
      = ⟨⟨[], [], [], [], [], [], "postgres"⟩, [Stmt.revokeRole "alice" "admins"], none⟩ := by
  decide

/-! ## C4 — pass ordering and abort-on-first-error -/

theorem seqR_noopR (r : RunResult) : seqR r noopR = r := by
  obtain ⟨st, sts, err⟩ := r
  cases err <;> simp [seqR, noopR]

theorem runFuncs_four (f1 f2 f3 f4 : DBState → RunResult) (s : DBState) :
    ∀ r1 r2 r3 r4 : RunResult,
      r1 = f1 s → r2 = f2 r1.state → r3 = f3 r2.state → r4 = f4 r3.state →
      (r1.err = none → r2.err = none → r3.err = none →
        runFuncs [f1, f2, f3, f4] s
          = ⟨r4.state, r1.stmts ++ (r2.stmts ++ (r3.stmts ++ r4.stmts)), r4.err⟩) ∧
      (∀ e, r1.err = some e → runFuncs [f1, f2, f3, f4] s = r1) ∧
      (∀ e, r1.err = none → r2.err = some e →
        runFuncs [f1, f2, f3, f4] s = ⟨r2.state, r1.stmts ++ r2.stmts, some e⟩) ∧
      (∀ e, r1.err = none → r2.err = none → r3.err = some e →
        runFuncs [f1, f2, f3, f4] s = ⟨r3.state, r1.stmts ++ (r2.stmts ++ r3.stmts), some e⟩) := by
  intro r1 r2 r3 r4 e1 e2 e3 e4
  subst e1; subst e2; subst e3; subst e4
  refine ⟨?_, ?_, ?_, ?_⟩
  · intro h1 h2 h3
    simp [runFuncs, seqR, seqR_noopR, h1, h2, h3]
    cases h4 : (f4 (f3 (f2 (f1 s).state).state).state).err <;> simp [h4, noopR]
  · intro e h1
    simp [runFuncs, seqR, h1]
  · intro e h1 h2
    simp [runFuncs, seqR, h1, h2]
  · intro e h1 h2 h3
    simp [runFuncs, seqR, h1, h2, h3]

/-- C4: the converge pass runs Roles, then Grants, then Databases (whose
reconciliation includes their extensions), then Slots; the prune pass runs
Databases, then Grants, then Roles, then Slots; in both passes the trace is
the in-order concatenation of the sub-reconcilers' traces, each started on
the state the previous one left, and the first error aborts the remaining
sequence (no later statements) and is surfaced to the caller. -/
theorem c4_pass_order_and_abort : ∀ (env : HashEnv) (h : Handler) (s : DBState),
    (∀ r1 r2 r3 r4 : RunResult,
      r1 = Roles.reconcile env h.Roles s →
      r2 = Grants.reconcile h.Grants r1.state →
      r3 = Databases.reconcile h.Databases r2.state →
      r4 = Slots.reconcile h.Slots r3.state →
      (r1.err = none → r2.err = none → r3.err = none →
        Handler.Reconcile env h s
          = ⟨r4.state, r1.stmts ++ (r2.stmts ++ (r3.stmts ++ r4.stmts)), r4.err⟩) ∧
      (∀ e, r1.err = some e → Handler.Reconcile env h s = r1) ∧
      (∀ e, r1.err = none → r2.err = some e →
        Handler.Reconcile env h s = ⟨r2.state, r1.stmts ++ r2.stmts, some e⟩) ∧
      (∀ e, r1.err = none → r2.err = none → r3.err = some e →
        Handler.Reconcile env h s
          = ⟨r3.state, r1.stmts ++ (r2.stmts ++ r3.stmts), some e⟩)) ∧
    (∀ r1 r2 r3 r4 : RunResult,
      r1 = Databases.finalize h.Databases s →
      r2 = Grants.finalize h.Grants r1.state →
      r3 = Roles.finalize h.Roles r2.state →
      r4 = Slots.finalize h.Slots r3.state →
      (r1.err = none → r2.err = none → r3.err = none →
        Handler.Finalize h s
          = ⟨r4.state, r1.stmts ++ (r2.stmts ++ (r3.stmts ++ r4.stmts)), r4.err⟩) ∧
      (∀ e, r1.err = some e → Handler.Finalize h s = r1) ∧
      (∀ e, r1.err = none → r2.err = some e →
        Handler.Finalize h s = ⟨r2.state, r1.stmts ++ r2.stmts, some e⟩) ∧
      (∀ e, r1.err = none → r2.err = none → r3.err = some e →
        Handler.Finalize h s
          = ⟨r3.state, r1.stmts ++ (r2.stmts ++ r3.stmts), some e⟩)) := by
  intro env h s
  exact ⟨runFuncs_four (Roles.reconcile env h.Roles) (Grants.reconcile h.Grants)
      (Databases.reconcile h.Databases) (Slots.reconcile h.Slots) s,
    runFuncs_four (Databases.finalize h.Databases) (Grants.finalize h.Grants)
      (Roles.finalize h.Roles) (Slots.finalize h.Slots) s⟩

/-- C4, applied at a concrete (empty) registry with every sub-reconciler
succeeding. -/
theorem c4_pass_order_witness :
    Handler.Reconcile ⟨fun _ => "", fun _ => ""⟩ ⟨⟨false, false, false, false⟩, [], [], [], []⟩
        ⟨[], [], [], [], [], [], "u"⟩
      = ⟨⟨[], [], [], [], [], [], "u"⟩, [], none⟩ :=
  ((c4_pass_order_and_abort ⟨fun _ => "", fun _ => ""⟩
        ⟨⟨false, false, false, false⟩, [], [], [], []⟩ ⟨[], [], [], [], [], [], "u"⟩).1
      (noopR ⟨[], [], [], [], [], [], "u"⟩) (noopR ⟨[], [], [], [], [], [], "u"⟩)
      (noopR ⟨[], [], [], [], [], [], "u"⟩) (noopR ⟨[], [], [], [], [], [], "u"⟩)
      rfl rfl rfl rfl).1 rfl rfl rfl

/-- C10 amended, applied at a concrete extension and catalog state. -/
theorem c10_amended_witness :
    Ext.create ⟨"foo", "", State.Present, ""⟩ "db" ⟨[], [], [], ["foo"], [], [], "admin"⟩
      = ⟨⟨[], [], [], ["foo"], [], [], "admin"⟩, [],
          some (Err.extVersionNotAvailable "" "foo")⟩ :=
  c10_amended ⟨"foo", "", State.Present, ""⟩ "db" ⟨[], [], [], ["foo"], [], [], "admin"⟩
    rfl rfl (by decide) (by decide)

end Pgfga
